import Mathlib

/-!
Shallow embedding of the behavior-tree evaluator in `src/node.rs`.

The repository's `Blackboard` (`crate::blackboard`) is not among the given
source files; per the spec it is an opaque, caller-defined mutable store that
the tree only ever borrows.  We therefore model it as an arbitrary type
parameter `β`: conditions read it (`β → Bool`), actions read and replace it.

Rust's `FnMut` action callbacks may carry internal mutable state across
invocations; we model that state explicitly with a second type parameter `σ`
shared by the actions of one `ActionMap` (heterogeneous states are recovered
by instantiating `σ` with a sum or product type).

The `.unwrap()` panic on an unregistered id in `ConditionMap::get_condition`
and `ActionMap::get_action` is modelled by `Option`: a `none` result of
`tick` is the panic, a `some` result is a normal return.
-/

namespace BehaviorTree

/-- Model of `Status` from `src/node.rs`: tri-state outcome of one tick. -/
inductive Status : Type where
  | Failure : Status
  | Success : Status
  | Running : Status
deriving DecidableEq, Repr

/-- Model of `NodeType` from `src/node.rs`. -/
inductive NodeType : Type where
  | Sequence : NodeType
  | Condition : NodeType
  | Action : NodeType
deriving DecidableEq, Repr

/-- Model of `Node` from `src/node.rs`: an id, a node type, and owned children. -/
inductive Node : Type where
  | mk (id : Nat) (node_type : NodeType) (children : List Node) : Node
deriving Repr

def Node.id : Node → Nat
  | .mk i _ _ => i

def Node.node_type : Node → NodeType
  | .mk _ t _ => t

def Node.children : Node → List Node
  | .mk _ _ cs => cs

/-- Model of `Condition` from `src/node.rs`: a boxed predicate over a read-only
blackboard view. -/
structure Condition (β : Type) : Type where
  cb : β → Bool

/-- Model of `Condition::evaluate`. -/
def Condition.evaluate {β : Type} (c : Condition β) (blackboard : β) : Bool :=
  c.cb blackboard

/-- Model of `ConditionMap` from `src/node.rs`: a `HashMap<u64, Condition>`, modelled
as an association list where the most recent insertion shadows earlier ones
(`HashMap::insert` overwrites). -/
structure ConditionMap (β : Type) : Type where
  conditions : List (Nat × Condition β)

def ConditionMap.new (β : Type) : ConditionMap β := ⟨[]⟩

/-- Model of `ConditionMap::add_condition` (`HashMap::insert`: last write wins). -/
def ConditionMap.add_condition {β : Type} (m : ConditionMap β) (node_id : Nat)
    (condition : Condition β) : ConditionMap β :=
  ⟨(node_id, condition) :: m.conditions⟩

/-- Model of `ConditionMap::get_condition`.  The Rust code does
`self.conditions.get(&node_id).unwrap()`; the panic is the `none` case. -/
def ConditionMap.get_condition {β : Type} (m : ConditionMap β) (node_id : Nat) :
    Option (Condition β) :=
  (m.conditions.find? (fun p => p.1 = node_id)).map Prod.snd

/-- Model of `Action` from `src/node.rs`: a boxed `FnMut` callback over a mutable
blackboard.  `state : σ` is the closure's captured mutable state; the
callback consumes it and the blackboard and returns the tick's status, the
updated blackboard and the updated closure state. -/
structure Action (β σ : Type) : Type where
  state : σ
  cb : σ → β → Status × β × σ

/-- Model of `Action::execute`: invoke the callback on the current blackboard,
yielding the status, the mutated blackboard and the action with its
internal state updated. -/
def Action.execute {β σ : Type} (a : Action β σ) (blackboard : β) :
    Status × β × Action β σ :=
  match a.cb a.state blackboard with
  | (s, b, st) => (s, b, ⟨st, a.cb⟩)

/-- Model of `ActionMap` from `src/node.rs`: a `HashMap<u64, Action>`, modelled as an
association list with last-write-wins lookup. -/
structure ActionMap (β σ : Type) : Type where
  actions : List (Nat × Action β σ)

def ActionMap.new (β σ : Type) : ActionMap β σ := ⟨[]⟩

/-- Model of `ActionMap::add_action` (`HashMap::insert`: last write wins). -/
def ActionMap.add_action {β σ : Type} (m : ActionMap β σ) (node_id : Nat)
    (action : Action β σ) : ActionMap β σ :=
  ⟨(node_id, action) :: m.actions⟩

/-- Model of `ActionMap::get_action`.  The Rust code does
`self.actions.get_mut(&node_id).unwrap()`; the panic is the `none` case. -/
def ActionMap.get_action {β σ : Type} (m : ActionMap β σ) (node_id : Nat) :
    Option (Action β σ) :=
  (m.actions.find? (fun p => p.1 = node_id)).map Prod.snd

/-- Replace the first entry for `node_id` in an association list of
actions. -/
def set_action_entries {β σ : Type} : List (Nat × Action β σ) → Nat →
    Action β σ → List (Nat × Action β σ)
  | [], _, _ => []
  | (i, a) :: rest, node_id, action =>
    if i = node_id then (i, action) :: rest
    else (i, a) :: set_action_entries rest node_id action

/-- Writing through the `&mut Action` handle returned by `get_mut`: replace
the first entry for `node_id` with the updated action. -/
def ActionMap.set_action {β σ : Type} (m : ActionMap β σ) (node_id : Nat)
    (action : Action β σ) : ActionMap β σ :=
  ⟨set_action_entries m.actions node_id action⟩

/-- Model of `execute_condition_node` from `src/node.rs`: look up the condition by the
node's id (panicking — `none` — if unregistered), evaluate it on the
read-only blackboard, map `true` to `Success` and `false` to `Failure`.
The blackboard and action map are untouched. -/
def execute_condition_node {β : Type} (node : Node) (blackboard : β)
    (condition_map : ConditionMap β) : Option Status :=
  match condition_map.get_condition node.id with
  | none => none
  | some condition =>
    if condition.evaluate blackboard then some Status.Success
    else some Status.Failure

/-- Model of `execute_action_node` from `src/node.rs`: look up the action by the
node's id (panicking — `none` — if unregistered), execute it on the mutable
blackboard, return its status; the mutated blackboard and the action's
updated internal state (written back through the `&mut` handle) are threaded
out. -/
def execute_action_node {β σ : Type} (node : Node) (blackboard : β)
    (action_map : ActionMap β σ) : Option (Status × β × ActionMap β σ) :=
  match action_map.get_action node.id with
  | none => none
  | some action =>
    match action.execute blackboard with
    | (s, b, a) => some (s, b, action_map.set_action node.id a)

mutual

/-- Model of `tick` from `src/node.rs`: dispatch on the node's type.  The node is
read-only; blackboard and action map are the mutable state threaded through;
`none` models a panic on an unregistered id. -/
def tick {β σ : Type} (node : Node) (blackboard : β)
    (condition_map : ConditionMap β) (action_map : ActionMap β σ) :
    Option (Status × β × ActionMap β σ) :=
  match node with
  | .mk _ .Sequence children => tick_children children blackboard condition_map action_map
  | .mk _ .Condition _ =>
    match execute_condition_node node blackboard condition_map with
    | none => none
    | some s => some (s, blackboard, action_map)
  | .mk _ .Action _ => execute_action_node node blackboard action_map

/-- The `for child_node in node.children` loop body of
`execute_sequence_node`: tick children left to right, short-circuiting on
`Running` and on `Failure`, returning `Success` when the list is exhausted.
A child's panic (`none`) propagates. -/
def tick_children {β σ : Type} (children : List Node) (blackboard : β)
    (condition_map : ConditionMap β) (action_map : ActionMap β σ) :
    Option (Status × β × ActionMap β σ) :=
  match children with
  | [] => some (Status.Success, blackboard, action_map)
  | child :: rest =>
    match tick child blackboard condition_map action_map with
    | none => none
    | some (status, b, am) =>
      if status = Status.Running then some (Status.Running, b, am)
      else if status = Status.Failure then some (Status.Failure, b, am)
      else tick_children rest b condition_map am

end

/-- Model of `execute_sequence_node` from `src/node.rs`, as the loop over the node's
children. -/
def execute_sequence_node {β σ : Type} (node : Node) (blackboard : β)
    (condition_map : ConditionMap β) (action_map : ActionMap β σ) :
    Option (Status × β × ActionMap β σ) :=
  tick_children node.children blackboard condition_map action_map

/-- Runs a list of children in order requiring every one of them to tick
`Success`, threading blackboard and action map; `none` when some child does
not return `Success` (or panics).  This is the specification-side notion
"every child (so far) returned `Success`" used to characterise the sequence
semantics. -/
def run_all_success {β σ : Type} : List Node → β → ConditionMap β →
    ActionMap β σ → Option (β × ActionMap β σ)
  | [], b, _, am => some (b, am)
  | c :: cs, b, cm, am =>
    match tick c b cm am with
    | some (Status.Success, b2, am2) => run_all_success cs b2 cm am2
    | _ => none

mutual

/-- Returns `true` iff the tree contains only `Sequence` and `Condition` nodes
(no `Action` leaf anywhere). -/
def no_action_node : Node → Bool
  | .mk _ .Sequence cs => no_action_list cs
  | .mk _ .Condition _ => true
  | .mk _ .Action _ => false

def no_action_list : List Node → Bool
  | [] => true
  | c :: cs => no_action_node c && no_action_list cs

end

mutual

/-- Number of evaluator call frames needed for a tree: one frame for the
node itself plus the frames of the sequence loop over its children. -/
def Node.size : Node → Nat
  | .mk _ _ cs => 1 + size_children cs

/-- Frames of the sequence loop: one per list cell plus the frames of each
child's own tick. -/
def size_children : List Node → Nat
  | [] => 1
  | c :: cs => 1 + Node.size c + size_children cs

end

mutual

/-- Fuel-instrumented variant of `tick`: every recursive call consumes one
unit of fuel.  The outer `none` means the fuel ran out mid-traversal; a
`some r` is the result `tick` itself would produce (with `r = none` still
modelling the unregistered-id panic). -/
def tick_fuel {β σ : Type} (fuel : Nat) (node : Node) (blackboard : β)
    (condition_map : ConditionMap β) (action_map : ActionMap β σ) :
    Option (Option (Status × β × ActionMap β σ)) :=
  match fuel with
  | 0 => none
  | fuel + 1 =>
    match node with
    | .mk _ .Sequence children =>
      tick_children_fuel fuel children blackboard condition_map action_map
    | .mk _ .Condition _ =>
      match execute_condition_node node blackboard condition_map with
      | none => some none
      | some s => some (some (s, blackboard, action_map))
    | .mk _ .Action _ => some (execute_action_node node blackboard action_map)

/-- Fuel-instrumented variant of `tick_children`. -/
def tick_children_fuel {β σ : Type} (fuel : Nat) (children : List Node)
    (blackboard : β) (condition_map : ConditionMap β)
    (action_map : ActionMap β σ) :
    Option (Option (Status × β × ActionMap β σ)) :=
  match fuel with
  | 0 => none
  | fuel + 1 =>
    match children with
    | [] => some (some (Status.Success, blackboard, action_map))
    | child :: rest =>
      match tick_fuel fuel child blackboard condition_map action_map with
      | none => none
      | some none => some none
      | some (some (status, b, am)) =>
        if status = Status.Running then some (some (Status.Running, b, am))
        else if status = Status.Failure then some (some (Status.Failure, b, am))
        else tick_children_fuel fuel rest b condition_map am

end

/-- Spy action used to observe evaluation order across ticks: it appends
its node id to the log blackboard (a list of visited ids) and returns the
fixed status `s`. -/
def spy_action (i : Nat) (s : Status) : Action (List Nat) Unit :=
  ⟨(), fun st b => (s, b ++ [i], st)⟩

/-- Dispatch map for the re-tick experiment: node 1 logs and succeeds,
node 2 logs and reports `Running`. -/
def spy_action_map : ActionMap (List Nat) Unit :=
  ActionMap.mk [(1, spy_action 1 Status.Success), (2, spy_action 2 Status.Running)]

/-- A tree `Sequence[Action 1, Action 2]` over the spy actions. -/
def spy_tree : Node :=
  Node.mk 0 NodeType.Sequence
    [Node.mk 1 NodeType.Action [], Node.mk 2 NodeType.Action []]

section Lemmas

variable {β σ : Type}

theorem tick_sequence_eq (i : Nat) (cs : List Node) (b : β)
    (cm : ConditionMap β) (am : ActionMap β σ) :
    tick (Node.mk i NodeType.Sequence cs) b cm am = tick_children cs b cm am :=
  rfl

theorem tick_children_nil (b : β) (cm : ConditionMap β) (am : ActionMap β σ) :
    tick_children ([] : List Node) b cm am = some (Status.Success, b, am) :=
  rfl

theorem tick_children_cons_panic {c : Node} {b : β} {cm : ConditionMap β}
    {am : ActionMap β σ} (cs : List Node) (h : tick c b cm am = none) :
    tick_children (c :: cs) b cm am = none := by
  rw [tick_children, h]

theorem tick_children_cons_running {c : Node} {b b2 : β} {cm : ConditionMap β}
    {am am2 : ActionMap β σ} (cs : List Node)
    (h : tick c b cm am = some (Status.Running, b2, am2)) :
    tick_children (c :: cs) b cm am = some (Status.Running, b2, am2) := by
  rw [tick_children, h]; rfl

theorem tick_children_cons_failure {c : Node} {b b2 : β} {cm : ConditionMap β}
    {am am2 : ActionMap β σ} (cs : List Node)
    (h : tick c b cm am = some (Status.Failure, b2, am2)) :
    tick_children (c :: cs) b cm am = some (Status.Failure, b2, am2) := by
  rw [tick_children, h]; rfl

theorem tick_children_cons_success {c : Node} {b b2 : β} {cm : ConditionMap β}
    {am am2 : ActionMap β σ} (cs : List Node)
    (h : tick c b cm am = some (Status.Success, b2, am2)) :
    tick_children (c :: cs) b cm am = tick_children cs b2 cm am2 := by
  rw [tick_children, h]; rfl

/-- A prefix on which every child succeeds is skipped over by the sequence
loop, leaving exactly the state the prefix produced. -/
theorem tick_children_append {cm : ConditionMap β} :
    ∀ (pre : List Node) (b : β) (am : ActionMap β σ) {b1 : β}
      {am1 : ActionMap β σ},
      run_all_success pre b cm am = some (b1, am1) →
      ∀ (rest : List Node),
        tick_children (pre ++ rest) b cm am = tick_children rest b1 cm am1 := by
  intro pre
  induction pre with
  | nil =>
    intro b am b1 am1 h rest
    simp only [run_all_success, Option.some.injEq, Prod.mk.injEq] at h
    rw [List.nil_append, h.1, h.2]
  | cons c cs ih =>
    intro b am b1 am1 h rest
    rw [run_all_success] at h
    cases hc : tick c b cm am with
    | none => rw [hc] at h; exact absurd h (by simp)
    | some r =>
      obtain ⟨s, b2, am2⟩ := r
      rw [hc] at h
      cases s with
      | Success =>
        rw [List.cons_append, tick_children_cons_success (cs ++ rest) hc]
        exact ih b2 am2 h rest
      | Failure => exact absurd h (by simp)
      | Running => exact absurd h (by simp)

/-- The sequence loop returns `Success` exactly when every child, run in
order with the state threaded through, returns `Success`. -/
theorem tick_children_success_iff {cm : ConditionMap β} :
    ∀ (cs : List Node) (b : β) (am : ActionMap β σ) (b' : β)
      (am' : ActionMap β σ),
      tick_children cs b cm am = some (Status.Success, b', am') ↔
        run_all_success cs b cm am = some (b', am') := by
  intro cs
  induction cs with
  | nil =>
    intro b am b' am'
    simp [tick_children_nil, run_all_success]
  | cons c cs ih =>
    intro b am b' am'
    constructor
    · intro h
      cases hc : tick c b cm am with
      | none => rw [tick_children_cons_panic cs hc] at h; exact absurd h (by simp)
      | some r =>
        obtain ⟨s, b2, am2⟩ := r
        cases s with
        | Success =>
          rw [tick_children_cons_success cs hc] at h
          rw [run_all_success, hc]
          exact (ih b2 am2 b' am').mp h
        | Failure =>
          rw [tick_children_cons_failure cs hc] at h
          exact absurd h (by simp)
        | Running =>
          rw [tick_children_cons_running cs hc] at h
          exact absurd h (by simp)
    · intro h
      rw [run_all_success] at h
      cases hc : tick c b cm am with
      | none => rw [hc] at h; exact absurd h (by simp)
      | some r =>
        obtain ⟨s, b2, am2⟩ := r
        rw [hc] at h
        cases s with
        | Success =>
          rw [tick_children_cons_success cs hc]
          exact (ih b2 am2 b' am').mpr h
        | Failure => exact absurd h (by simp)
        | Running => exact absurd h (by simp)

/-- The sequence loop returns `Failure` exactly when the children split as a
prefix of all-`Success` children followed by a child that ticks `Failure`;
the loop's final state is the failing child's output state. -/
theorem tick_children_failure_iff {cm : ConditionMap β} :
    ∀ (cs : List Node) (b : β) (am : ActionMap β σ) (b' : β)
      (am' : ActionMap β σ),
      tick_children cs b cm am = some (Status.Failure, b', am') ↔
        ∃ (pre : List Node) (c : Node) (post : List Node) (b1 : β)
          (am1 : ActionMap β σ),
          cs = pre ++ c :: post ∧
          run_all_success pre b cm am = some (b1, am1) ∧
          tick c b1 cm am1 = some (Status.Failure, b', am') := by
  intro cs
  induction cs with
  | nil =>
    intro b am b' am'
    constructor
    · intro h; exact absurd h (by simp [tick_children_nil])
    · rintro ⟨pre, c, post, b1, am1, habs, -⟩
      exact absurd habs (by simp)
  | cons c cs ih =>
    intro b am b' am'
    constructor
    · intro h
      cases hc : tick c b cm am with
      | none => rw [tick_children_cons_panic cs hc] at h; exact absurd h (by simp)
      | some r =>
        obtain ⟨s, b2, am2⟩ := r
        cases s with
        | Success =>
          rw [tick_children_cons_success cs hc] at h
          obtain ⟨pre, c', post, b1, am1, hsplit, hpre, hfail⟩ :=
            (ih b2 am2 b' am').mp h
          refine ⟨c :: pre, c', post, b1, am1, by rw [hsplit, List.cons_append], ?_, hfail⟩
          rw [run_all_success, hc]; exact hpre
        | Failure =>
          rw [tick_children_cons_failure cs hc] at h
          obtain ⟨hb, ham⟩ : b2 = b' ∧ am2 = am' := by
            simpa using h
          exact ⟨[], c, cs, b, am, rfl, rfl, by rw [hc, hb, ham]⟩
        | Running =>
          rw [tick_children_cons_running cs hc] at h
          exact absurd h (by simp)
    · rintro ⟨pre, c', post, b1, am1, hsplit, hpre, hfail⟩
      rw [hsplit, tick_children_append pre b am hpre (c' :: post)]
      exact tick_children_cons_failure post hfail

/-- The sequence loop returns `Running` exactly when the children split as a
prefix of all-`Success` children followed by a child that ticks `Running`;
the loop's final state is the running child's output state. -/
theorem tick_children_running_iff {cm : ConditionMap β} :
    ∀ (cs : List Node) (b : β) (am : ActionMap β σ) (b' : β)
      (am' : ActionMap β σ),
      tick_children cs b cm am = some (Status.Running, b', am') ↔
        ∃ (pre : List Node) (c : Node) (post : List Node) (b1 : β)
          (am1 : ActionMap β σ),
          cs = pre ++ c :: post ∧
          run_all_success pre b cm am = some (b1, am1) ∧
          tick c b1 cm am1 = some (Status.Running, b', am') := by
  intro cs
  induction cs with
  | nil =>
    intro b am b' am'
    constructor
    · intro h; exact absurd h (by simp [tick_children_nil])
    · rintro ⟨pre, c, post, b1, am1, habs, -⟩
      exact absurd habs (by simp)
  | cons c cs ih =>
    intro b am b' am'
    constructor
    · intro h
      cases hc : tick c b cm am with
      | none => rw [tick_children_cons_panic cs hc] at h; exact absurd h (by simp)
      | some r =>
        obtain ⟨s, b2, am2⟩ := r
        cases s with
        | Success =>
          rw [tick_children_cons_success cs hc] at h
          obtain ⟨pre, c', post, b1, am1, hsplit, hpre, hrun⟩ :=
            (ih b2 am2 b' am').mp h
          refine ⟨c :: pre, c', post, b1, am1, by rw [hsplit, List.cons_append], ?_, hrun⟩
          rw [run_all_success, hc]; exact hpre
        | Failure =>
          rw [tick_children_cons_failure cs hc] at h
          exact absurd h (by simp)
        | Running =>
          rw [tick_children_cons_running cs hc] at h
          obtain ⟨hb, ham⟩ : b2 = b' ∧ am2 = am' := by
            simpa using h
          exact ⟨[], c, cs, b, am, rfl, rfl, by rw [hc, hb, ham]⟩
    · rintro ⟨pre, c', post, b1, am1, hsplit, hpre, hrun⟩
      rw [hsplit, tick_children_append pre b am hpre (c' :: post)]
      exact tick_children_cons_running post hrun

end Lemmas

section Claims

variable {β σ : Type}

/-- C1: Ticking a Sequence node returns `Failure` exactly when some child
returns `Failure` and every child before it (in declared order) returned
`Success`; the failing child and the children before it are evaluated (their
state updates are threaded, each exactly once, and the final state is the
failing child's output state), and no child after the failing one is
evaluated: the result is the same for every list of children after the
failing one. -/
theorem sequence_failure_characterization (i : Nat) (cs : List Node) (b : β)
    (cm : ConditionMap β) (am : ActionMap β σ) (b' : β) (am' : ActionMap β σ) :
    (tick (Node.mk i NodeType.Sequence cs) b cm am =
        some (Status.Failure, b', am') ↔
      ∃ (pre : List Node) (c : Node) (post : List Node) (b1 : β)
        (am1 : ActionMap β σ),
        cs = pre ++ c :: post ∧
        run_all_success pre b cm am = some (b1, am1) ∧
        tick c b1 cm am1 = some (Status.Failure, b', am'))
    ∧ (∀ (pre : List Node) (c : Node) (b1 : β) (am1 : ActionMap β σ),
        run_all_success pre b cm am = some (b1, am1) →
        tick c b1 cm am1 = some (Status.Failure, b', am') →
        ∀ (post : List Node),
          tick (Node.mk i NodeType.Sequence (pre ++ c :: post)) b cm am =
            some (Status.Failure, b', am')) := by
  constructor
  · rw [tick_sequence_eq]
    exact tick_children_failure_iff cs b am b' am'
  · intro pre c b1 am1 hpre hfail post
    rw [tick_sequence_eq, tick_children_append pre b am hpre (c :: post)]
    exact tick_children_cons_failure post hfail

/-- Witness for C1: `Sequence[Condition(true), Condition(false)]` fails,
with the failing child's output state as the result. -/
theorem sequence_failure_characterization_witness :
    tick (Node.mk 0 NodeType.Sequence
        [Node.mk 1 NodeType.Condition [], Node.mk 2 NodeType.Condition []])
      () (ConditionMap.mk [(1, ⟨fun _ => true⟩), (2, ⟨fun _ => false⟩)])
      (ActionMap.new Unit Unit) =
      some (Status.Failure, (), ActionMap.new Unit Unit) :=
  (sequence_failure_characterization 0
      [Node.mk 1 NodeType.Condition [], Node.mk 2 NodeType.Condition []]
      () (ConditionMap.mk [(1, ⟨fun _ => true⟩), (2, ⟨fun _ => false⟩)])
      (ActionMap.new Unit Unit) () (ActionMap.new Unit Unit)).2
    [Node.mk 1 NodeType.Condition []] (Node.mk 2 NodeType.Condition [])
    () (ActionMap.new Unit Unit) rfl rfl []

/-- C2: Ticking a Sequence node returns `Running` exactly when some child
returns `Running` and every earlier child returned `Success`, and no child
after the running one is evaluated on that tick: the result is the same for
every list of children after the running one. -/
theorem sequence_running_characterization (i : Nat) (cs : List Node) (b : β)
    (cm : ConditionMap β) (am : ActionMap β σ) (b' : β) (am' : ActionMap β σ) :
    (tick (Node.mk i NodeType.Sequence cs) b cm am =
        some (Status.Running, b', am') ↔
      ∃ (pre : List Node) (c : Node) (post : List Node) (b1 : β)
        (am1 : ActionMap β σ),
        cs = pre ++ c :: post ∧
        run_all_success pre b cm am = some (b1, am1) ∧
        tick c b1 cm am1 = some (Status.Running, b', am'))
    ∧ (∀ (pre : List Node) (c : Node) (b1 : β) (am1 : ActionMap β σ),
        run_all_success pre b cm am = some (b1, am1) →
        tick c b1 cm am1 = some (Status.Running, b', am') →
        ∀ (post : List Node),
          tick (Node.mk i NodeType.Sequence (pre ++ c :: post)) b cm am =
            some (Status.Running, b', am')) := by
  constructor
  · rw [tick_sequence_eq]
    exact tick_children_running_iff cs b am b' am'
  · intro pre c b1 am1 hpre hrun post
    rw [tick_sequence_eq, tick_children_append pre b am hpre (c :: post)]
    exact tick_children_cons_running post hrun

/-- Witness for C2: `Sequence[Condition(true), Action(Running)]` returns
`Running` with no child after the running one evaluated. -/
theorem sequence_running_characterization_witness :
    tick (Node.mk 0 NodeType.Sequence
        [Node.mk 1 NodeType.Condition [], Node.mk 2 NodeType.Action []])
      () (ConditionMap.mk [(1, ⟨fun _ => true⟩)])
      (ActionMap.mk [(2, ⟨(), fun st b => (Status.Running, b, st)⟩)]) =
      some (Status.Running, (),
        ActionMap.mk [(2, ⟨(), fun st b => (Status.Running, b, st)⟩)]) :=
  (sequence_running_characterization 0
      [Node.mk 1 NodeType.Condition [], Node.mk 2 NodeType.Action []]
      () (ConditionMap.mk [(1, ⟨fun _ => true⟩)])
      (ActionMap.mk [(2, ⟨(), fun st b => (Status.Running, b, st)⟩)]) ()
      (ActionMap.mk [(2, ⟨(), fun st b => (Status.Running, b, st)⟩)])).2
    [Node.mk 1 NodeType.Condition []] (Node.mk 2 NodeType.Action [])
    () (ActionMap.mk [(2, ⟨(), fun st b => (Status.Running, b, st)⟩)]) rfl rfl []

/-- C3: Ticking a Sequence node returns `Success` if and only if every child
(run in declared order with the state threaded through) returns `Success`;
in particular a Sequence with zero children always returns `Success`. -/
theorem sequence_success_characterization (i : Nat) (cs : List Node) (b : β)
    (cm : ConditionMap β) (am : ActionMap β σ) (b' : β) (am' : ActionMap β σ) :
    (tick (Node.mk i NodeType.Sequence cs) b cm am =
        some (Status.Success, b', am') ↔
      run_all_success cs b cm am = some (b', am'))
    ∧ tick (Node.mk i NodeType.Sequence []) b cm am =
        some (Status.Success, b, am) := by
  constructor
  · rw [tick_sequence_eq]
    exact tick_children_success_iff cs b am b' am'
  · rfl

/-- Witness for C3: the empty Sequence succeeds, via the iff at a concrete
sequence of two true conditions. -/
theorem sequence_success_characterization_witness :
    tick (Node.mk 0 NodeType.Sequence
        [Node.mk 1 NodeType.Condition [], Node.mk 2 NodeType.Condition []])
      () (ConditionMap.mk [(1, ⟨fun _ => true⟩), (2, ⟨fun _ => true⟩)])
      (ActionMap.new Unit Unit) =
      some (Status.Success, (), ActionMap.new Unit Unit) :=
  (sequence_success_characterization 0
      [Node.mk 1 NodeType.Condition [], Node.mk 2 NodeType.Condition []]
      () (ConditionMap.mk [(1, ⟨fun _ => true⟩), (2, ⟨fun _ => true⟩)])
      (ActionMap.new Unit Unit) () (ActionMap.new Unit Unit)).1.mpr rfl

/-- C4: Ticking a Condition node whose id is registered returns `Success`
when the registered predicate evaluates to `true` on the blackboard and
`Failure` when it evaluates to `false` (leaving blackboard and action map
untouched), and it never returns `Running`. -/
theorem condition_node_semantics (i : Nat) (cs : List Node) (b : β)
    (cm : ConditionMap β) (am : ActionMap β σ) (c : Condition β)
    (h : cm.get_condition i = some c) :
    tick (Node.mk i NodeType.Condition cs) b cm am =
      some (if c.evaluate b then Status.Success else Status.Failure, b, am)
    ∧ ∀ (b' : β) (am' : ActionMap β σ),
        tick (Node.mk i NodeType.Condition cs) b cm am ≠
          some (Status.Running, b', am') := by
  have hmain : tick (Node.mk i NodeType.Condition cs) b cm am =
      some (if c.evaluate b then Status.Success else Status.Failure, b, am) := by
    rw [tick]
    simp only [execute_condition_node, Node.id, h]
    cases hev : c.evaluate b <;> simp
  refine ⟨hmain, fun b' am' hcon => ?_⟩
  rw [hmain] at hcon
  cases hev : c.evaluate b <;> rw [hev] at hcon <;> simp at hcon

/-- Witness for C4: a registered always-true condition ticks to `Success`. -/
theorem condition_node_semantics_witness :
    tick (Node.mk 1 NodeType.Condition []) ()
        (ConditionMap.mk [(1, ⟨fun _ => true⟩)]) (ActionMap.new Unit Unit) =
      some (Status.Success, (), ActionMap.new Unit Unit) :=
  (condition_node_semantics 1 [] () (ConditionMap.mk [(1, ⟨fun _ => true⟩)])
      (ActionMap.new Unit Unit) ⟨fun _ => true⟩ rfl).1

/-- C5: Ticking an Action node whose id is registered returns exactly the
status produced by the registered callback on that tick, the callback is
invoked on the blackboard exactly as it stands when the node is ticked (so
it observes all mutations threaded from prior ticks), the callback's
mutated blackboard is the tick's resulting blackboard, and the callback's
updated internal state is written back into the action map. -/
theorem action_node_semantics (i : Nat) (cs : List Node) (b : β)
    (cm : ConditionMap β) (am : ActionMap β σ) (a : Action β σ)
    (h : am.get_action i = some a) :
    tick (Node.mk i NodeType.Action cs) b cm am =
      some ((a.cb a.state b).1, (a.cb a.state b).2.1,
        am.set_action i ⟨(a.cb a.state b).2.2, a.cb⟩) := by
  rw [tick]
  simp only [execute_action_node, Node.id, h, Action.execute]

/-- Witness for C5: a registered counter action returns its callback's
status verbatim, with blackboard and closure state updated. -/
theorem action_node_semantics_witness :
    tick (Node.mk 7 NodeType.Action []) (5 : Nat) (ConditionMap.new Nat)
        (ActionMap.mk [(7, ⟨0, fun st b => (Status.Running, b + 1, st + 1)⟩)]) =
      some (Status.Running, 6,
        ActionMap.mk [(7, ⟨1, fun st b => (Status.Running, b + 1, st + 1)⟩)]) :=
  action_node_semantics 7 [] 5 (ConditionMap.new Nat)
    (ActionMap.mk [(7, ⟨0, fun st b => (Status.Running, b + 1, st + 1)⟩)])
    ⟨0, fun st b => (Status.Running, b + 1, st + 1)⟩ rfl

/-- C6: Ticking a Condition (resp. Action) node panics — modelled as the
`none` result — exactly when its id has no entry in the corresponding
dispatch map; when the id is registered the lookup, and hence the tick,
never panics. -/
theorem unregistered_id_panics (i : Nat) (cs cs2 : List Node) (b : β)
    (cm : ConditionMap β) (am : ActionMap β σ) :
    (tick (Node.mk i NodeType.Condition cs) b cm am = none ↔
      cm.get_condition i = none)
    ∧ (tick (Node.mk i NodeType.Action cs2) b cm am = none ↔
      am.get_action i = none) := by
  constructor
  · rw [tick]
    simp only [execute_condition_node, Node.id]
    cases hc : cm.get_condition i with
    | none => simp
    | some c => cases hev : c.evaluate b <;> simp [hev]
  · rw [tick]
    simp only [execute_action_node, Node.id]
    cases ha : am.get_action i with
    | none => simp
    | some a => simp [Action.execute]

/-- Witness for C6: with empty dispatch maps, ticking a Condition node and
an Action node both panic. -/
theorem unregistered_id_panics_witness :
    tick (Node.mk 3 NodeType.Condition []) () (ConditionMap.new Unit)
        (ActionMap.new Unit Unit) = none ∧
    tick (Node.mk 4 NodeType.Action []) () (ConditionMap.new Unit)
        (ActionMap.new Unit Unit) = none :=
  ⟨(unregistered_id_panics 3 [] [] () (ConditionMap.new Unit)
      (ActionMap.new Unit Unit)).1.mpr rfl,
    (unregistered_id_panics 4 [] [] () (ConditionMap.new Unit)
      (ActionMap.new Unit Unit)).2.mpr rfl⟩

/-- C7: The evaluator stores no cross-tick state in the tree: a tick of a
Sequence node is a pure function of the node value and the current
blackboard/dispatch state, always traversing the children list from its
head (no memorized resume point).  Concretely, for the spy tree whose
second child stays `Running`, the first tick logs `[1, 2]` and a second
tick re-runs the first child, logging `[1, 2, 1, 2]` — the first child's
side effect is repeated. -/
theorem sequence_no_resume_point :
    (∀ (β σ : Type) (i : Nat) (cs : List Node) (b : β) (cm : ConditionMap β)
      (am : ActionMap β σ),
      tick (Node.mk i NodeType.Sequence cs) b cm am = tick_children cs b cm am)
    ∧ ((tick spy_tree [] (ConditionMap.new (List Nat)) spy_action_map).map
        (fun r => (r.1, r.2.1)) = some (Status.Running, [1, 2]))
    ∧ (((tick spy_tree [] (ConditionMap.new (List Nat)) spy_action_map).bind
        (fun r1 => tick spy_tree r1.2.1 (ConditionMap.new (List Nat)) r1.2.2)).map
        (fun r => (r.1, r.2.1)) = some (Status.Running, [1, 2, 1, 2])) :=
  ⟨fun _ _ _ _ _ _ _ => rfl, rfl, rfl⟩

mutual

theorem tick_no_action_pure {β σ : Type} : ∀ (n : Node) (b : β)
    (cm : ConditionMap β) (am : ActionMap β σ) (s : Status) (b' : β)
    (am' : ActionMap β σ),
    no_action_node n = true → tick n b cm am = some (s, b', am') →
    b' = b ∧ am' = am
  | Node.mk _ NodeType.Sequence cs, b, cm, am, s, b', am', hna, h => by
    rw [no_action_node] at hna
    rw [tick] at h
    exact tick_children_no_action_pure cs b cm am s b' am' hna h
  | Node.mk i NodeType.Condition cs, b, cm, am, s, b', am', _, h => by
    rw [tick] at h
    cases hx : execute_condition_node (Node.mk i NodeType.Condition cs) b cm with
    | none => rw [hx] at h; exact absurd h (by simp)
    | some s0 =>
      rw [hx] at h
      obtain ⟨-, hb, ham⟩ : s0 = s ∧ b = b' ∧ am = am' := by simpa using h
      exact ⟨hb.symm, ham.symm⟩
  | Node.mk _ NodeType.Action _, _, _, _, _, _, _, hna, _ => by
    rw [no_action_node] at hna
    exact absurd hna (by simp)

theorem tick_children_no_action_pure {β σ : Type} : ∀ (cs : List Node)
    (b : β) (cm : ConditionMap β) (am : ActionMap β σ) (s : Status) (b' : β)
    (am' : ActionMap β σ),
    no_action_list cs = true → tick_children cs b cm am = some (s, b', am') →
    b' = b ∧ am' = am
  | [], b, cm, am, s, b', am', _, h => by
    rw [tick_children_nil] at h
    obtain ⟨-, hb, ham⟩ : Status.Success = s ∧ b = b' ∧ am = am' := by simpa using h
    exact ⟨hb.symm, ham.symm⟩
  | c :: cs, b, cm, am, s, b', am', hna, h => by
    rw [no_action_list, Bool.and_eq_true] at hna
    cases hc : tick c b cm am with
    | none =>
      rw [tick_children_cons_panic cs hc] at h
      exact absurd h (by simp)
    | some r =>
      obtain ⟨st, b2, am2⟩ := r
      obtain ⟨hb2, ham2⟩ :=
        tick_no_action_pure c b cm am st b2 am2 hna.1 hc
      cases st with
      | Running =>
        rw [tick_children_cons_running cs hc] at h
        obtain ⟨-, hb, ham⟩ : Status.Running = s ∧ b2 = b' ∧ am2 = am' := by
          simpa using h
        exact ⟨hb ▸ hb2, ham ▸ ham2⟩
      | Failure =>
        rw [tick_children_cons_failure cs hc] at h
        obtain ⟨-, hb, ham⟩ : Status.Failure = s ∧ b2 = b' ∧ am2 = am' := by
          simpa using h
        exact ⟨hb ▸ hb2, ham ▸ ham2⟩
      | Success =>
        rw [tick_children_cons_success cs hc] at h
        obtain ⟨hb, ham⟩ :=
          tick_children_no_action_pure cs b2 cm am2 s b' am' hna.2 h
        exact ⟨hb2 ▸ hb, ham2 ▸ ham⟩

end

/-- C8: A tree consisting solely of Sequence and Condition nodes cannot
change the evaluation state: whenever such a tree's tick returns, the
resulting blackboard (and action map) is exactly the one passed in —
conditions only get a read-only view. -/
theorem condition_only_tree_preserves_blackboard (n : Node) (b : β)
    (cm : ConditionMap β) (am : ActionMap β σ) (s : Status) (b' : β)
    (am' : ActionMap β σ) (hna : no_action_node n = true)
    (h : tick n b cm am = some (s, b', am')) : b' = b ∧ am' = am :=
  tick_no_action_pure n b cm am s b' am' hna h

/-- Witness for C8: a sequence of one condition over a `Nat` blackboard
leaves the state untouched. -/
theorem condition_only_tree_preserves_blackboard_witness :
    (5 : Nat) = 5 ∧ ActionMap.new Nat Unit = ActionMap.new Nat Unit :=
  condition_only_tree_preserves_blackboard
    (Node.mk 0 NodeType.Sequence [Node.mk 1 NodeType.Condition []]) 5
    (ConditionMap.mk [(1, ⟨fun b => b == 5⟩)]) (ActionMap.new Nat Unit)
    Status.Success 5 (ActionMap.new Nat Unit) (by rfl) (by rfl)

mutual

theorem tick_fuel_complete {β σ : Type} : ∀ (n : Node) (f : Nat) (b : β)
    (cm : ConditionMap β) (am : ActionMap β σ), Node.size n ≤ f →
    tick_fuel f n b cm am = some (tick n b cm am)
  | Node.mk i t cs, f, b, cm, am, h => by
    rw [Node.size] at h
    cases f with
    | zero => exact absurd h (by omega)
    | succ f1 =>
      cases t with
      | Sequence =>
        rw [tick_fuel, tick]
        exact tick_children_fuel_complete cs f1 b cm am (by omega)
      | Condition =>
        rw [tick_fuel, tick]
        cases hx : execute_condition_node (Node.mk i NodeType.Condition cs) b cm
          <;> simp [hx]
      | Action =>
        rw [tick_fuel, tick]

theorem tick_children_fuel_complete {β σ : Type} : ∀ (cs : List Node)
    (f : Nat) (b : β) (cm : ConditionMap β) (am : ActionMap β σ),
    size_children cs ≤ f →
    tick_children_fuel f cs b cm am = some (tick_children cs b cm am)
  | [], f, b, cm, am, h => by
    rw [size_children] at h
    cases f with
    | zero => exact absurd h (by omega)
    | succ f1 => rfl
  | c :: cs, f, b, cm, am, h => by
    rw [size_children] at h
    cases f with
    | zero => exact absurd h (by omega)
    | succ f1 =>
      rw [tick_children_fuel]
      rw [tick_fuel_complete c f1 b cm am (by omega)]
      cases hc : tick c b cm am with
      | none => rw [tick_children_cons_panic cs hc]
      | some r =>
        obtain ⟨st, b2, am2⟩ := r
        cases st with
        | Running => rw [tick_children_cons_running cs hc]; rfl
        | Failure => rw [tick_children_cons_failure cs hc]; rfl
        | Success =>
          rw [tick_children_cons_success cs hc]
          exact tick_children_fuel_complete cs f1 b2 cm am2 (by omega)

end

/-- C9: `tick` terminates on every finite tree: the fuel-instrumented
evaluator, given at least `Node.size n` fuel (one unit per recursive call
frame), never exhausts its fuel and computes exactly `tick n`; hence the
recursion is bounded by the tree's size and `tick` always returns. -/
theorem tick_terminates (n : Node) (f : Nat) (b : β) (cm : ConditionMap β)
    (am : ActionMap β σ) (h : Node.size n ≤ f) :
    tick_fuel f n b cm am = some (tick n b cm am) :=
  tick_fuel_complete n f b cm am h

/-- Witness for C9: a nested tree of size at most 16 is fully evaluated
with 16 units of fuel. -/
theorem tick_terminates_witness :
    tick_fuel 16
        (Node.mk 0 NodeType.Sequence
          [Node.mk 1 NodeType.Sequence [Node.mk 2 NodeType.Condition []],
            Node.mk 3 NodeType.Condition []])
        () (ConditionMap.mk [(2, ⟨fun _ => true⟩), (3, ⟨fun _ => true⟩)])
        (ActionMap.new Unit Unit) =
      some (tick
        (Node.mk 0 NodeType.Sequence
          [Node.mk 1 NodeType.Sequence [Node.mk 2 NodeType.Condition []],
            Node.mk 3 NodeType.Condition []])
        () (ConditionMap.mk [(2, ⟨fun _ => true⟩), (3, ⟨fun _ => true⟩)])
        (ActionMap.new Unit Unit)) :=
  tick_terminates
    (Node.mk 0 NodeType.Sequence
      [Node.mk 1 NodeType.Sequence [Node.mk 2 NodeType.Condition []],
        Node.mk 3 NodeType.Condition []])
    16 () (ConditionMap.mk [(2, ⟨fun _ => true⟩), (3, ⟨fun _ => true⟩)])
    (ActionMap.new Unit Unit) (by decide)

/-- C10: Ticking a Sequence node never consults the dispatch maps for the
node's own id: the result is independent of that id, and an empty Sequence
ticks to `Success` even with completely empty dispatch maps (no panic). -/
theorem sequence_never_consults_dispatch :
    (∀ (β σ : Type) (i j : Nat) (cs : List Node) (b : β)
      (cm : ConditionMap β) (am : ActionMap β σ),
      tick (Node.mk i NodeType.Sequence cs) b cm am =
        tick (Node.mk j NodeType.Sequence cs) b cm am)
    ∧ (∀ (β σ : Type) (i : Nat) (b : β),
      tick (Node.mk i NodeType.Sequence []) b (ConditionMap.new β)
          (ActionMap.new β σ) =
        some (Status.Success, b, ActionMap.new β σ)) :=
  ⟨fun _ _ _ _ _ _ _ _ => rfl, fun _ _ _ _ => rfl⟩

end Claims

end BehaviorTree
